import Mathlib

/-!
Verification of the `carica_dynamodb_tools` item-size calculator and
statistics generator against its natural-language specification.

The definitions below are a shallow embedding of
`src/carica_dynamodb_tools/item_size.py` and
`src/carica_dynamodb_tools/stats.py`.  Strings are modelled as `List Char`,
Python `Decimal` tuples as `DecTuple`, DynamoDB JSON values as `JVal`, and
Python exceptions as `Except SizeError`.
-/

/-- The numeric value of a decimal digit character, `ord(c) - ord('0')`. -/
def digitVal (c : Char) : Nat := c.toNat - 48

/-- The character for a decimal digit, `chr(ord('0') + d)` (i.e. `str(d)`). -/
def digitChar (d : Nat) : Char := Char.ofNat (48 + d)

/-- Remove trailing `'0'` characters, as Python's
`while l and l[-1] == '0': l.pop(-1)`. -/
def rstripZeros (l : List Char) : List Char :=
  (l.reverse.dropWhile (fun c => c = '0')).reverse

/-- Python `s.strip('0')`: remove leading and trailing `'0'` characters. -/
def stripZeros (s : List Char) : List Char :=
  rstripZeros (s.dropWhile (fun c => c = '0'))

/-- `string_size(s)`: the UTF-8 byte length `len(bytes(s, 'utf-8'))`. -/
def string_size (s : List Char) : Nat := (s.map Char.utf8Size).sum

/-- `binary_size(b)` embeds `len(base64.b64decode(b))` for well-formed
standard base64 text: 3 decoded bytes per 4-character group, minus one byte
per trailing `'='` padding character. -/
def binary_size (b : List Char) : Nat :=
  3 * (b.length / 4) - (b.reverse.takeWhile (fun c => c = '=')).length

/-- The result of Python's `Decimal(n_str).as_tuple()`: a sign flag, the
coefficient digits (no leading zeros; `[0]` for a zero coefficient), and a
decimal exponent. -/
structure DecTuple where
  sign : Bool
  digits : List Nat
  exp : Int
deriving DecidableEq

/-- Well-formedness of a `DecTuple`, as guaranteed by `Decimal` parsing:
a nonempty coefficient of decimal digits with no leading zero (except the
zero coefficient `[0]`). -/
def DecTuple.Valid (t : DecTuple) : Prop :=
  t.digits ≠ [] ∧ (∀ d ∈ t.digits, d < 10) ∧
    (t.digits.head? = some 0 → t.digits = [0])

/-- Consume an optional leading sign character. -/
def parseSign : List Char → Bool × List Char
  | [] => (false, [])
  | c :: rest =>
    if c = '-' then (true, rest)
    else if c = '+' then (false, rest)
    else (false, c :: rest)

/-- Value of a nonempty digit string. -/
def digitsToNat (ds : List Char) : Nat :=
  ds.foldl (fun a c => 10 * a + digitVal c) 0

/-- Parse the coefficient part of a decimal literal: integer digits,
optionally a point and fractional digits.  Returns the integer digits, the
fractional digits and the remaining input; fails when no digit is present. -/
def parseCoeff (s : List Char) : Option (List Char × List Char × List Char) :=
  let ip := s.takeWhile Char.isDigit
  let s1 := s.dropWhile Char.isDigit
  match s1 with
  | '.' :: r =>
    let fp := r.takeWhile Char.isDigit
    if ip = [] ∧ fp = [] then none
    else some (ip, fp, r.dropWhile Char.isDigit)
  | _ => if ip = [] then none else some (ip, [], s1)

/-- Parse an optional exponent suffix `[eE][+-]?digits` ending the input. -/
def parseExp (s : List Char) : Option Int :=
  match s with
  | [] => some 0
  | e :: r =>
    if e = 'e' ∨ e = 'E' then
      let p := parseSign r
      let ed := p.2.takeWhile Char.isDigit
      if ed = [] ∨ p.2.dropWhile Char.isDigit ≠ [] then none
      else some (if p.1 then -(digitsToNat ed : Int) else (digitsToNat ed : Int))
    else none

/-- Assemble a `DecTuple` from sign, integer digits, fractional digits and
written exponent, normalizing the coefficient the way `Decimal` does:
leading zeros stripped, empty coefficient collapsed to `[0]`, and the
exponent lowered by the number of fractional digits. -/
def mkTuple (sg : Bool) (ip fp : List Char) (e : Int) : DecTuple :=
  let raw := (ip ++ fp).map digitVal
  let stripped := raw.dropWhile (fun d => d = 0)
  { sign := sg
    digits := if stripped = [] then [0] else stripped
    exp := e - fp.length }

/-- `Decimal(n_str).as_tuple()` for a finite decimal literal:
`sign? digits [. digits] [(e|E) sign? digits]`.  Returns `none` when the
input is not of that shape (Python raises `decimal.InvalidOperation`). -/
def parseDecimal (s : List Char) : Option DecTuple :=
  let p := parseSign s
  match parseCoeff p.2 with
  | none => none
  | some (ip, fp, rest2) =>
    match parseExp rest2 with
    | none => none
    | some e => some (mkTuple p.1 ip fp e)

/-- The unsigned part of `format_decimal`: build the digit list, place the
decimal point (Python `list.insert(exp, '.')` with the negative index
`exp`, after left-padding with zeros) or append `exp` zeros, trim leading
zeros, trim trailing zeros when a point is present, and collapse an empty
or point-only result to `"0"`. -/
def format_core (t : DecTuple) : List Char :=
  let ds := t.digits.map digitChar
  let withExp :=
    if t.exp < 0 then
      let k := t.exp.natAbs
      let padded := List.replicate (k - ds.length) '0' ++ ds
      padded.take (padded.length - k) ++ '.' :: padded.drop (padded.length - k)
    else ds ++ List.replicate t.exp.toNat '0'
  let led := withExp.dropWhile (fun c => c = '0')
  let trimmed := if led.any (fun c => c = '.') then rstripZeros led else led
  if trimmed = [] ∨ trimmed = ['.'] then ['0'] else trimmed

/-- `format_decimal` on a parsed tuple: the sign character (emitted whenever
the parsed sign flag is set) followed by the unsigned canonical form. -/
def format_decimal (t : DecTuple) : List Char :=
  (if t.sign then ['-'] else []) ++ format_core t

/-- `format_decimal(n_str)` at the string level: parse, then format. -/
def format_decimal_str (n : List Char) : Option (List Char) :=
  (parseDecimal n).map format_decimal

/-- `measure_number(d_str)`: when a decimal point is present, split into
`p0`/`p1`, apply the pure-fraction rule (`p0 == '0'`), pad odd halves with
the filler `'Z'`, and measure the concatenation; the code's recursive call
`measure_number(p0 + p1)` always reaches the point-free branch, which is
inlined here: strip leading and trailing `'0'` and take `ceil(len / 2)`. -/
def measure_number (d_str : List Char) : Nat :=
  if d_str.any (fun c => c = '.') then
    let p0 := d_str.takeWhile (fun c => c ≠ '.')
    let p1 := (d_str.dropWhile (fun c => c ≠ '.')).tail
    let pp := if p0 = ['0'] then (([] : List Char), p1.dropWhile (fun c => c = '0'))
              else (p0, p1)
    let q0 := if pp.1.length % 2 ≠ 0 then 'Z' :: pp.1 else pp.1
    let q1 := if pp.2.length % 2 ≠ 0 then pp.2 ++ ['Z'] else pp.2
    ((stripZeros (q0 ++ q1)).length + 1) / 2
  else
    ((stripZeros d_str).length + 1) / 2

/-- The body of `number_size` applied to the canonical string `n_str`
returned by `format_decimal`: measure the string with all `'-'` removed,
add 1, add 1 more when the string starts with `'-'`, and clamp at 21. -/
def number_size_canonical (n_str : List Char) : Nat :=
  let size := measure_number (n_str.filter (fun c => c ≠ '-')) + 1
  let size := if n_str.head? = some '-' then size + 1 else size
  if 21 < size then 21 else size

/-- `number_size` on a parsed tuple. -/
def number_size_t (t : DecTuple) : Nat :=
  number_size_canonical (format_decimal t)

/-- Python exceptions raised while sizing an item: `ValueError` for an
unknown attribute type tag, `TypeError`-like shape errors for payloads of
the wrong JSON type, and `decimal.InvalidOperation` for unparsable numeric
strings. -/
inductive SizeError where
  | unknownType
  | badPayload
  | badNumber
deriving DecidableEq

/-- `number_size(n)` at the string level: `Decimal` parsing may fail
(`decimal.InvalidOperation`), otherwise the size is computed from the
canonical form. -/
def number_size (n : List Char) : Except SizeError Nat :=
  match parseDecimal n with
  | none => .error .badNumber
  | some t => .ok (number_size_canonical (format_decimal t))

deriving instance DecidableEq for Except

/-- A parsed JSON value as produced by `json.loads`, restricted to the
shapes that occur in DynamoDB JSON items: strings, booleans, objects
(ordered fields with distinct names) and arrays. -/
inductive JVal where
  | jstr (s : List Char)
  | jbool (b : Bool)
  | jobj (fields : List (List Char × JVal))
  | jarr (elems : List JVal)

/-- Python `attr[k]` on a dict modelled as an ordered field list. -/
def lookupJ (k : List Char) : List (List Char × JVal) → Option JVal
  | [] => none
  | (k', v) :: rest => if k' = k then some v else lookupJ k rest

/-- Python `k in attr`. -/
def hasKey (k : List Char) (fields : List (List Char × JVal)) : Bool :=
  (lookupJ k fields).isSome

def tagS : List Char := ['S']
def tagN : List Char := ['N']
def tagB : List Char := ['B']
def tagBOOL : List Char := ['B', 'O', 'O', 'L']
def tagNULL : List Char := ['N', 'U', 'L', 'L']
def tagM : List Char := ['M']
def tagL : List Char := ['L']
def tagSS : List Char := ['S', 'S']
def tagNS : List Char := ['N', 'S']
def tagBS : List Char := ['B', 'S']

/-- `string_size(attr['S'])`; a non-string payload raises a `TypeError`. -/
def sizeS : Option JVal → Except SizeError Nat
  | some (.jstr s) => .ok (string_size s)
  | _ => .error .badPayload

/-- `number_size(attr['N'])`; a non-string payload raises a `TypeError`. -/
def sizeN : Option JVal → Except SizeError Nat
  | some (.jstr n) => number_size n
  | _ => .error .badPayload

/-- `binary_size(attr['B'])`; a non-string payload raises a `TypeError`. -/
def sizeB : Option JVal → Except SizeError Nat
  | some (.jstr b) => .ok (binary_size b)
  | _ => .error .badPayload

/-- `sum(string_size(e) for e in attr['SS'])`, failing on the first
non-string element. -/
def sizeSSElems : List JVal → Except SizeError Nat
  | [] => .ok 0
  | .jstr s :: rest =>
    match sizeSSElems rest with
    | .error e => .error e
    | .ok r => .ok (string_size s + r)
  | _ => .error .badPayload

/-- `sum(number_size(e) for e in attr['NS'])`, failing on the first
non-string or unparsable element. -/
def sizeNSElems : List JVal → Except SizeError Nat
  | [] => .ok 0
  | .jstr n :: rest =>
    match number_size n with
    | .error e => .error e
    | .ok s =>
      match sizeNSElems rest with
      | .error e => .error e
      | .ok r => .ok (s + r)
  | _ => .error .badPayload

/-- `sum(binary_size(e) for e in attr['BS'])`, failing on the first
non-string element. -/
def sizeBSElems : List JVal → Except SizeError Nat
  | [] => .ok 0
  | .jstr b :: rest =>
    match sizeBSElems rest with
    | .error e => .error e
    | .ok r => .ok (binary_size b + r)
  | _ => .error .badPayload

/-- `lookupJ` returns a structurally smaller value. -/
theorem sizeOf_lookupJ {k : List Char} :
    ∀ {fields : List (List Char × JVal)} {v : JVal},
      lookupJ k fields = some v → sizeOf v < sizeOf fields := by
  intro fields
  induction fields with
  | nil => intro v h; simp [lookupJ] at h
  | cons p rest ih =>
    intro v h
    obtain ⟨k', w⟩ := p
    by_cases hk : k' = k
    · simp [lookupJ, hk] at h
      subst h
      simp
      omega
    · simp [lookupJ, hk] at h
      have := ih h
      simp
      omega

mutual

/-- `attr_size(attr)` when `attr` is a parsed JSON value; only dict-shaped
values are meaningful (Python's `'S' in attr` misbehaves or raises on other
shapes, modelled as a payload-shape error). -/
def attr_size : JVal → Except SizeError Nat
  | .jobj fields => attr_size_fields fields
  | _ => .error .badPayload
termination_by v => sizeOf v
decreasing_by all_goals (simp_wf; try omega)

/-- The body of `attr_size`: dispatch over the type tags in the source's
fixed order `S, N, B, BOOL, NULL, M, L, SS, NS, BS`; when none is present,
raise `ValueError('Unknown attribute type: ...')`.  Map and List add the
`EMPTY_DOC_BASE_SIZE` of 3 plus, per member, its size and the
`NESTED_TYPE_BASE_SIZE` of 1 (plus the member name's UTF-8 length for
maps). -/
def attr_size_fields (fields : List (List Char × JVal)) : Except SizeError Nat :=
  if hasKey tagS fields then sizeS (lookupJ tagS fields)
  else if hasKey tagN fields then sizeN (lookupJ tagN fields)
  else if hasKey tagB fields then sizeB (lookupJ tagB fields)
  else if hasKey tagBOOL fields then .ok 1
  else if hasKey tagNULL fields then .ok 1
  else if hasKey tagM fields then
    match hM : lookupJ tagM fields with
    | some (.jobj entries) =>
      match attr_size_entries entries with
      | .error e => .error e
      | .ok s => .ok (3 + s)
    | _ => .error .badPayload
  else if hasKey tagL fields then
    match hL : lookupJ tagL fields with
    | some (.jarr elems) =>
      match attr_size_elems elems with
      | .error e => .error e
      | .ok s => .ok (3 + s)
    | _ => .error .badPayload
  else if hasKey tagSS fields then
    match lookupJ tagSS fields with
    | some (.jarr elems) => sizeSSElems elems
    | _ => .error .badPayload
  else if hasKey tagNS fields then
    match lookupJ tagNS fields with
    | some (.jarr elems) => sizeNSElems elems
    | _ => .error .badPayload
  else if hasKey tagBS fields then
    match lookupJ tagBS fields with
    | some (.jarr elems) => sizeBSElems elems
    | _ => .error .badPayload
  else .error .unknownType
termination_by sizeOf fields
decreasing_by
  all_goals simp_wf
  · have := sizeOf_lookupJ hM
    simp at this
    omega
  · have := sizeOf_lookupJ hL
    simp at this
    omega

/-- The loop over `attr['M'].items()`: per entry, the member name's UTF-8
length, the member value's size, and 1. -/
def attr_size_entries : List (List Char × JVal) → Except SizeError Nat
  | [] => .ok 0
  | (name, v) :: rest =>
    match attr_size v with
    | .error e => .error e
    | .ok s =>
      match attr_size_entries rest with
      | .error e => .error e
      | .ok r => .ok (string_size name + s + 1 + r)
termination_by entries => sizeOf entries
decreasing_by all_goals (simp_wf; try omega)

/-- The loop over `attr['L']`: per element, its size and 1. -/
def attr_size_elems : List JVal → Except SizeError Nat
  | [] => .ok 0
  | v :: rest =>
    match attr_size v with
    | .error e => .error e
    | .ok s =>
      match attr_size_elems rest with
      | .error e => .error e
      | .ok r => .ok (s + 1 + r)
termination_by elems => sizeOf elems
decreasing_by all_goals (simp_wf; try omega)

end

/-- `item_size(item)`: the sum over attributes of the attribute name's
UTF-8 length plus the attribute value's size.  The enclosing
`localcontext` sets 38-digit precision, which does not affect any
operation performed here (only `Decimal` construction is used, which never
rounds). -/
def item_size : List (List Char × JVal) → Except SizeError Nat
  | [] => .ok 0
  | (name, v) :: rest =>
    match attr_size v with
    | .error e => .error e
    | .ok s =>
      match item_size rest with
      | .error e => .error e
      | .ok r => .ok (string_size name + s + r)

/-- One line of `generate_stats` output (the metric fields only; echoed
attributes are not modelled).  Python computes the unit and efficiency
fields with exact small-integer float arithmetic; they are modelled as
rationals, and the excess fields as integers. -/
structure ItemStats where
  size : Nat
  read_units : ℚ
  read_efficiency : ℚ
  read_excess : ℤ
  write_units : Nat
  write_efficiency : ℚ
  write_excess : ℤ
deriving DecidableEq

/-- The per-record computation of `generate_stats`, from the item's size:
`read_blocks_required = ceil(size / 4096)`,
`read_bytes_required = read_blocks_required * 4096`,
`write_blocks_required = ceil(size / 1024)`, and — exactly as the source
line reads — `write_bytes_required = read_blocks_required * 1024`. -/
def generate_stats_record (size : Nat) : ItemStats :=
  let read_blocks_required : Nat := (size + 4095) / 4096
  let read_bytes_required : Nat := read_blocks_required * 4096
  let write_blocks_required : Nat := (size + 1023) / 1024
  let write_bytes_required : Nat := read_blocks_required * 1024
  { size := size
    read_units := (read_blocks_required : ℚ) / 2
    read_efficiency := (size : ℚ) / (read_bytes_required : ℚ)
    read_excess := (read_bytes_required : ℤ) - (size : ℤ)
    write_units := write_blocks_required
    write_efficiency := (size : ℚ) / (write_bytes_required : ℚ)
    write_excess := (write_bytes_required : ℤ) - (size : ℤ) }

/-- A well-formed AttributeValue: the tagged union of the data model, used
to state properties about inputs that carry exactly one known type tag
with a payload of the right shape. -/
inductive AttrVal where
  | S (s : List Char)
  | N (n : List Char)
  | B (b : List Char)
  | Bool (b : Bool)
  | Null
  | M (entries : List (List Char × AttrVal))
  | L (elems : List AttrVal)
  | SS (elems : List (List Char))
  | NS (elems : List (List Char))
  | BS (elems : List (List Char))

mutual

/-- The single-key tagged JSON object denoting a well-formed
AttributeValue. -/
def AttrVal.toJVal : AttrVal → JVal
  | .S s => .jobj [(tagS, .jstr s)]
  | .N n => .jobj [(tagN, .jstr n)]
  | .B b => .jobj [(tagB, .jstr b)]
  | .Bool b => .jobj [(tagBOOL, .jbool b)]
  | .Null => .jobj [(tagNULL, .jbool true)]
  | .M entries => .jobj [(tagM, .jobj (toJValEntries entries))]
  | .L elems => .jobj [(tagL, .jarr (toJValElems elems))]
  | .SS elems => .jobj [(tagSS, .jarr (elems.map JVal.jstr))]
  | .NS elems => .jobj [(tagNS, .jarr (elems.map JVal.jstr))]
  | .BS elems => .jobj [(tagBS, .jarr (elems.map JVal.jstr))]

/-- Map entries of a well-formed Map to JSON object fields. -/
def toJValEntries : List (List Char × AttrVal) → List (List Char × JVal)
  | [] => []
  | (n, v) :: rest => (n, v.toJVal) :: toJValEntries rest

/-- Elements of a well-formed List as JSON values. -/
def toJValElems : List AttrVal → List JVal
  | [] => []
  | v :: rest => v.toJVal :: toJValElems rest

end

/-- An AttributeValue whose payload contributes zero bytes: an empty
string or binary payload, or a set all of whose elements contribute zero
bytes.  (A number never contributes zero; maps and lists always carry the
container overhead.) -/
def zeroPayload : AttrVal → Bool
  | .S s => s.isEmpty
  | .B b => binary_size b = 0
  | .SS elems => elems.all List.isEmpty
  | .NS elems => elems.isEmpty
  | .BS elems => elems.all (fun b => binary_size b = 0)
  | _ => false

/-- The ten known type tags in the order `attr_size` checks them. -/
def knownTags : List (List Char) :=
  [tagS, tagN, tagB, tagBOOL, tagNULL, tagM, tagL, tagSS, tagNS, tagBS]

/-- The first known tag present in an attribute object, following the
source's fixed check order. -/
def firstKnownTag (fields : List (List Char × JVal)) : Option (List Char) :=
  knownTags.find? (fun t => hasKey t fields)

/-- The sizing rule of a single known tag, applied to an attribute
object's field list: the branch bodies of `attr_size_fields`, indexed by
the tag instead of selected by the if-chain. -/
def dispatchTag (t : List Char) (fields : List (List Char × JVal)) :
    Except SizeError Nat :=
  if t = tagS then sizeS (lookupJ tagS fields)
  else if t = tagN then sizeN (lookupJ tagN fields)
  else if t = tagB then sizeB (lookupJ tagB fields)
  else if t = tagBOOL then .ok 1
  else if t = tagNULL then .ok 1
  else if t = tagM then
    match lookupJ tagM fields with
    | some (.jobj entries) =>
      match attr_size_entries entries with
      | .error e => .error e
      | .ok s => .ok (3 + s)
    | _ => .error .badPayload
  else if t = tagL then
    match lookupJ tagL fields with
    | some (.jarr elems) =>
      match attr_size_elems elems with
      | .error e => .error e
      | .ok s => .ok (3 + s)
    | _ => .error .badPayload
  else if t = tagSS then
    match lookupJ tagSS fields with
    | some (.jarr elems) => sizeSSElems elems
    | _ => .error .badPayload
  else if t = tagNS then
    match lookupJ tagNS fields with
    | some (.jarr elems) => sizeNSElems elems
    | _ => .error .badPayload
  else if t = tagBS then
    match lookupJ tagBS fields with
    | some (.jarr elems) => sizeBSElems elems
    | _ => .error .badPayload
  else .error .unknownType

/-- Whether the value denoted by a `Decimal` tuple is strictly negative:
the sign flag is set and the coefficient is not zero. -/
def decNegative (t : DecTuple) : Bool :=
  t.sign && !(t.digits.all (fun d => d = 0))

/-- The exact rational value denoted by a `Decimal` tuple. -/
def decValue (t : DecTuple) : ℚ :=
  (if t.sign then -1 else 1) *
    (t.digits.foldl (fun a d => 10 * a + d) 0 : ℚ) * (10 : ℚ) ^ t.exp

/-- Modelled on the specification's NumberSizeEncoder steps 1-4, which
describe the same split/pad/measure procedure as the source's
`measure_number`. -/
def specMeasure (u : List Char) : Nat := measure_number u

/-- The specification's packed-decimal algorithm as the claim states it:
canonicalize, measure the unsigned canonical form, add 1 overhead byte,
add 1 more byte if the VALUE is negative, clamp at 21. -/
def numberSizeSpec (t : DecTuple) : Nat :=
  let m := specMeasure (format_core t)
  min (m + 1 + (if decNegative t then 1 else 0)) 21

/-- The amended packed-decimal algorithm: identical to `numberSizeSpec`
except that the extra sign byte is charged whenever the canonical string
bears a `'-'` sign (which for this formatter includes negative zero). -/
def numberSizeSpecAmended (t : DecTuple) : Nat :=
  let m := specMeasure (format_core t)
  min (m + 1 + (if t.sign then 1 else 0)) 21

/-- The number of significant digits of a canonical decimal form: its
digits without the decimal point, stripped of leading and trailing
zeros. -/
def sigDigits (t : DecTuple) : Nat :=
  (stripZeros ((format_core t).filter (fun c => c ≠ '.'))).length

/-! ### List and character helper lemmas -/

theorem head?_dropWhile_nsat {α : Type} (p : α → Bool) :
    ∀ (l : List α) {a : α}, (l.dropWhile p).head? = some a → p a = false := by
  intro l
  induction l with
  | nil => intro a h; simp [List.dropWhile] at h
  | cons c rest ih =>
    intro a h
    by_cases hc : p c
    · rw [List.dropWhile_cons_of_pos hc] at h
      exact ih h
    · rw [List.dropWhile_cons_of_neg hc] at h
      simp at h
      subst h
      simpa using hc

theorem getLast?_rstripZeros {l : List Char} {c : Char}
    (h : (rstripZeros l).getLast? = some c) : c ≠ '0' := by
  rw [rstripZeros, ← List.head?_reverse, List.reverse_reverse] at h
  have := head?_dropWhile_nsat _ _ h
  simpa using this

theorem rstripZeros_cons {c : Char} (hc : c ≠ '0') (s : List Char) :
    rstripZeros (c :: s) = c :: rstripZeros s := by
  unfold rstripZeros
  rw [show (c :: s).reverse = s.reverse ++ [c] by simp, List.dropWhile_append]
  by_cases h : (s.reverse.dropWhile (fun x => x = '0')).isEmpty
  · simp only [h, if_true]
    rw [List.isEmpty_iff] at h
    rw [h]
    simp [List.dropWhile, hc]
  · simp only [h, if_false]
    simp

theorem rstripZeros_append_last {u : List Char} {c : Char} (hc : c ≠ '0') :
    rstripZeros (u ++ [c]) = u ++ [c] := by
  unfold rstripZeros
  rw [show (u ++ [c]).reverse = c :: u.reverse by simp]
  rw [List.dropWhile_cons_of_neg (by simpa using hc)]
  simp

theorem length_rstripZeros_le (l : List Char) :
    (rstripZeros l).length ≤ l.length := by
  unfold rstripZeros
  simpa using (List.dropWhile_sublist (l := l.reverse) (fun c => c = '0')).length_le

theorem length_rstripZeros_append_left (a t : List Char) :
    (rstripZeros t).length ≤ (rstripZeros (a ++ t)).length := by
  unfold rstripZeros
  rw [show (a ++ t).reverse = t.reverse ++ a.reverse by simp, List.dropWhile_append]
  by_cases h : (t.reverse.dropWhile (fun c => c = '0')).isEmpty
  · rw [List.isEmpty_iff] at h
    simp [h]
  · simp only [h, if_false]
    simp

theorem dropWhile_idem {α : Type} (p : α → Bool) (l : List α) :
    (l.dropWhile p).dropWhile p = l.dropWhile p := by
  cases h : l.dropWhile p with
  | nil => rfl
  | cons c rest =>
    have hc : p c = false := by
      have : (l.dropWhile p).head? = some c := by rw [h]; rfl
      exact head?_dropWhile_nsat p l this
    rw [List.dropWhile_cons_of_neg (by simp [hc])]

theorem length_stripZeros_le (s : List Char) : (stripZeros s).length ≤ s.length :=
  le_trans (length_rstripZeros_le _)
    (by simpa using (List.dropWhile_sublist (l := s) (fun c => c = '0')).length_le)

/-- Stripping zeros after removing leading zeros never yields more than
stripping trailing zeros alone. -/
theorem length_stripZeros_le_rstrip (s : List Char) :
    (stripZeros s).length ≤ (rstripZeros s).length := by
  unfold stripZeros
  calc (rstripZeros (s.dropWhile (fun c => c = '0'))).length
      ≤ (rstripZeros (s.takeWhile (fun c => c = '0') ++ s.dropWhile (fun c => c = '0'))).length :=
        length_rstripZeros_append_left _ _
    _ = (rstripZeros s).length := by rw [List.takeWhile_append_dropWhile]

/-- Prepending the filler `'Z'` cannot shrink the stripped length. -/
theorem length_stripZeros_cons_Z (s : List Char) :
    (stripZeros s).length ≤ (stripZeros ('Z' :: s)).length := by
  unfold stripZeros
  rw [List.dropWhile_cons_of_neg (by decide)]
  rw [rstripZeros_cons (by decide)]
  calc (rstripZeros (s.dropWhile (fun c => c = '0'))).length
      ≤ (rstripZeros s).length := length_stripZeros_le_rstrip s
    _ ≤ (rstripZeros s).length + 1 := Nat.le_succ _
    _ = ('0' :: rstripZeros s).length := by simp
    _ = (rstripZeros s).length + 1 := by simp
    _ = ('Z' :: rstripZeros s).length := by simp

/-- Appending the filler `'Z'` cannot shrink the stripped length. -/
theorem length_stripZeros_append_Z (s : List Char) :
    (stripZeros s).length ≤ (stripZeros (s ++ ['Z'])).length := by
  unfold stripZeros
  rw [List.dropWhile_append]
  by_cases h : s.dropWhile (fun c => c = '0') = []
  · simp [h, rstripZeros]
  · rw [if_neg (by simpa using h)]
    rw [rstripZeros_append_last (show ('Z' : Char) ≠ '0' by decide)]
    calc (rstripZeros (s.dropWhile (fun c => c = '0'))).length
        ≤ (s.dropWhile (fun c => c = '0')).length := length_rstripZeros_le _
      _ ≤ (s.dropWhile (fun c => c = '0')).length + 1 := Nat.le_succ _
      _ = (s.dropWhile (fun c => c = '0') ++ ['Z']).length := by simp

/-- Padding with fillers on both sides cannot shrink the stripped length. -/
theorem length_stripZeros_both_Z (s : List Char) :
    (stripZeros s).length ≤ (stripZeros ('Z' :: (s ++ ['Z']))).length := by
  have h1 : stripZeros ('Z' :: (s ++ ['Z'])) = 'Z' :: (s ++ ['Z']) := by
    unfold stripZeros
    rw [List.dropWhile_cons_of_neg (by decide)]
    have : 'Z' :: (s ++ ['Z']) = ('Z' :: s) ++ ['Z'] := by simp
    rw [this, rstripZeros_append_last (show ('Z' : Char) ≠ '0' by decide)]
  rw [h1]
  simp
  calc (stripZeros s).length ≤ s.length := length_stripZeros_le s
    _ ≤ s.length + 2 := by omega

theorem stripZeros_cons_zero (s : List Char) : stripZeros ('0' :: s) = stripZeros s := by
  unfold stripZeros
  rw [List.dropWhile_cons_of_pos (by decide)]

theorem stripZeros_dropWhile_zero (s : List Char) :
    stripZeros (s.dropWhile (fun c => c = '0')) = stripZeros s := by
  unfold stripZeros
  rw [dropWhile_idem]

/-- The decomposition of a string at its first decimal point. -/
theorem dot_split {u : List Char} (h : u.any (fun c => c = '.')) :
    u = u.takeWhile (fun c => c ≠ '.') ++
        '.' :: (u.dropWhile (fun c => c ≠ '.')).tail := by
  have hmem : '.' ∈ u := by
    simp only [List.any_eq_true] at h
    obtain ⟨c, hc, he⟩ := h
    simp at he
    subst he
    exact hc
  have hne : u.dropWhile (fun c => c ≠ '.') ≠ [] := by
    intro hnil
    have := List.takeWhile_append_dropWhile (fun c => (c ≠ '.' : Bool)) u
    rw [hnil, List.append_nil] at this
    rw [← this] at hmem
    have := List.mem_takeWhile_imp hmem
    simp at this
  cases hd : u.dropWhile (fun c => c ≠ '.') with
  | nil => exact absurd hd hne
  | cons c rest =>
    have hc : c = '.' := by
      have : (u.dropWhile (fun c => c ≠ '.')).head? = some c := by rw [hd]; rfl
      have := head?_dropWhile_nsat _ _ this
      simpa using this
    subst hc
    conv_lhs => rw [← List.takeWhile_append_dropWhile (fun c => (c ≠ '.' : Bool)) u]
    rw [hd]
    rfl

/-- Core inequality behind the 21-byte clamp: the measured size of any
string with at most one decimal point is at least the ceiling of half its
significant-digit count (its length after removing the point and
stripping zeros). -/
theorem measure_number_ge_sig (u : List Char) (hcount : u.count '.' ≤ 1) :
    ((stripZeros (u.filter (fun c => c ≠ '.'))).length + 1) / 2 ≤ measure_number u := by
  by_cases hdot : u.any (fun c => c = '.')
  · have hsplit := dot_split hdot
    set p0 := u.takeWhile (fun c => c ≠ '.') with hp0def
    set p1 := (u.dropWhile (fun c => c ≠ '.')).tail with hp1def
    have hdot_p0 : ∀ c ∈ p0, c ≠ '.' := by
      intro c hc
      have := List.mem_takeWhile_imp hc
      simpa using this
    have hdot_p1 : ∀ c ∈ p1, c ≠ '.' := by
      have hcnt : p0.count '.' + (p1.count '.' + 1) ≤ 1 := by
        rw [hsplit] at hcount
        simpa [List.count_append] using hcount
      intro c hc he
      subst he
      have : 0 < p1.count '.' := List.count_pos_iff.mpr hc
      omega
    have hfilter : u.filter (fun c => c ≠ '.') = p0 ++ p1 := by
      conv_lhs => rw [hsplit]
      rw [List.filter_append]
      rw [List.filter_eq_self.mpr (by intro c hc; simpa using hdot_p0 c hc)]
      rw [show List.filter (fun c => decide (c ≠ '.')) ('.' :: p1) = List.filter (fun c => decide (c ≠ '.')) p1 by simp]
      rw [List.filter_eq_self.mpr (by intro c hc; simpa using hdot_p1 c hc)]
    rw [hfilter]
    unfold measure_number
    rw [if_pos hdot]
    dsimp only
    rw [← hp0def, ← hp1def]
    apply Nat.div_le_div_right
    apply Nat.add_le_add_right
    by_cases h0 : p0 = ['0']
    · rw [if_pos h0]
      dsimp only
      rw [h0, show (['0'] : List Char) ++ p1 = '0' :: p1 from rfl, stripZeros_cons_zero]
      rw [if_neg (show ¬(([] : List Char).length % 2 ≠ 0) by simp)]
      rw [List.nil_append]
      by_cases hpar : (p1.dropWhile (fun c => c = '0')).length % 2 ≠ 0
      · rw [if_pos hpar]
        calc (stripZeros p1).length
            = (stripZeros (p1.dropWhile (fun c => c = '0'))).length := by
              rw [stripZeros_dropWhile_zero]
          _ ≤ (stripZeros (p1.dropWhile (fun c => c = '0') ++ ['Z'])).length :=
              length_stripZeros_append_Z _
      · rw [if_neg hpar, stripZeros_dropWhile_zero]
    · rw [if_neg h0]
      dsimp only
      by_cases hq0 : p0.length % 2 ≠ 0 <;> by_cases hq1 : p1.length % 2 ≠ 0
      · rw [if_pos hq0, if_pos hq1,
          show ('Z' :: p0) ++ (p1 ++ ['Z']) = 'Z' :: ((p0 ++ p1) ++ ['Z']) by simp]
        exact length_stripZeros_both_Z (p0 ++ p1)
      · rw [if_pos hq0, if_neg hq1,
          show ('Z' :: p0) ++ p1 = 'Z' :: (p0 ++ p1) by simp]
        exact length_stripZeros_cons_Z (p0 ++ p1)
      · rw [if_neg hq0, if_pos hq1,
          show p0 ++ (p1 ++ ['Z']) = (p0 ++ p1) ++ ['Z'] by simp]
        exact length_stripZeros_append_Z (p0 ++ p1)
      · rw [if_neg hq0, if_neg hq1]
  · unfold measure_number
    rw [if_neg hdot]
    have hnmem : '.' ∉ u := by
      intro hm
      exact hdot (List.any_eq_true.mpr ⟨'.', hm, by simp⟩)
    have : u.filter (fun c => c ≠ '.') = u := by
      apply List.filter_eq_self.mpr
      intro c hc
      have : c ≠ '.' := fun he => hnmem (he ▸ hc)
      simpa using this
    rw [this]

theorem rstripZeros_sublist (l : List Char) : (rstripZeros l).Sublist l := by
  unfold rstripZeros
  have := (List.dropWhile_sublist (l := l.reverse) (fun c => c = '0')).reverse
  simpa using this

theorem rstrip_decomp (l : List Char) :
    l = rstripZeros l ++ (l.reverse.takeWhile (fun c => c = '0')).reverse := by
  unfold rstripZeros
  rw [← List.reverse_append, List.takeWhile_append_dropWhile, List.reverse_reverse]

theorem digitChar_ne {d : Nat} (hd : d < 10) :
    digitChar d ≠ '.' ∧ digitChar d ≠ '-' ∧ digitChar d ≠ 'e' ∧ digitChar d ≠ 'E' ∧
      digitChar d ≠ '+' := by
  interval_cases d <;> exact (by decide)

/-- The digit/point placement stage of `format_decimal`, before trimming
(named view of the first half of `format_core`). -/
def withExpOf (t : DecTuple) : List Char :=
  let ds := t.digits.map digitChar
  if t.exp < 0 then
    let k := t.exp.natAbs
    let padded := List.replicate (k - ds.length) '0' ++ ds
    padded.take (padded.length - k) ++ '.' :: padded.drop (padded.length - k)
  else ds ++ List.replicate t.exp.toNat '0'

/-- The trimming/collapsing stage of `format_decimal` (named view of the
second half of `format_core`). -/
def postTrim (w : List Char) : List Char :=
  let led := w.dropWhile (fun c => c = '0')
  let trimmed := if led.any (fun c => c = '.') then rstripZeros led else led
  if trimmed = [] ∨ trimmed = ['.'] then ['0'] else trimmed

theorem format_core_eq (t : DecTuple) : format_core t = postTrim (withExpOf t) := rfl

theorem postTrim_mem {w : List Char} {c : Char} (hc : c ∈ postTrim w) :
    c = '0' ∨ c ∈ w := by
  unfold postTrim at hc
  dsimp only at hc
  split at hc <;> split at hc
  · left; simpa using hc
  · right; exact (List.dropWhile_sublist _).subset ((rstripZeros_sublist _).subset hc)
  · left; simpa using hc
  · right; exact (List.dropWhile_sublist _).subset hc

theorem postTrim_ne_nil (w : List Char) : postTrim w ≠ [] := by
  unfold postTrim
  dsimp only
  split <;> split
  all_goals first
    | (rename_i hcond; intro hnil; exact hcond (Or.inl hnil))
    | simp

theorem postTrim_head {w : List Char} :
    postTrim w = ['0'] ∨ ∀ c, (postTrim w).head? = some c → c ≠ '0' := by
  unfold postTrim
  dsimp only
  split
  · rename_i hany
    split
    · left; rfl
    · rename_i hcond
      right
      intro c hc hc0
      subst hc0
      have hne : rstripZeros (w.dropWhile (fun c => c = '0')) ≠ [] :=
        fun h => hcond (Or.inl h)
      have hdec := rstrip_decomp (w.dropWhile (fun c => c = '0'))
      have hh : (w.dropWhile (fun c => c = '0')).head? = some '0' := by
        conv_lhs => rw [hdec]
        rw [List.head?_append_of_ne_nil _ hne]
        exact hc
      have := head?_dropWhile_nsat _ _ hh
      simp at this
  · split
    · left; rfl
    · right
      intro c hc hc0
      subst hc0
      have := head?_dropWhile_nsat _ _ hc
      simp at this

theorem postTrim_last_dot {w : List Char} (hdot : '.' ∈ postTrim w) :
    ∀ c, (postTrim w).getLast? = some c → c ≠ '0' := by
  intro c hc
  unfold postTrim at hdot hc
  dsimp only at hdot hc
  split at hdot
  · rename_i hany
    split at hdot
    · simp at hdot
    · rename_i hcond
      rw [if_pos hany, if_neg hcond] at hc
      exact getLast?_rstripZeros hc
  · rename_i hany
    split at hdot
    · simp at hdot
    · exact absurd (List.any_eq_true.mpr ⟨'.', hdot, by simp⟩) hany

theorem postTrim_count_dot (w : List Char) :
    (postTrim w).count '.' ≤ w.count '.' := by
  unfold postTrim
  dsimp only
  split <;> split
  · simp
  · exact le_trans ((rstripZeros_sublist _).count_le '.')
      ((List.dropWhile_sublist _).count_le '.')
  · simp
  · exact (List.dropWhile_sublist _).count_le '.'

theorem withExpOf_mem {t : DecTuple} {c : Char} (hc : c ∈ withExpOf t) :
    c = '.' ∨ c = '0' ∨ ∃ d ∈ t.digits, c = digitChar d := by
  unfold withExpOf at hc
  dsimp only at hc
  have hds : ∀ x ∈ t.digits.map digitChar, ∃ d ∈ t.digits, x = digitChar d := by
    intro x hx
    obtain ⟨d, hd, he⟩ := List.mem_map.mp hx
    exact ⟨d, hd, he.symm⟩
  split at hc
  · have hpad : ∀ x ∈ List.replicate (t.exp.natAbs - (t.digits.map digitChar).length) '0' ++
        t.digits.map digitChar, x = '0' ∨ ∃ d ∈ t.digits, x = digitChar d := by
      intro x hx
      rcases List.mem_append.mp hx with h | h
      · left; exact List.eq_of_mem_replicate h
      · right; exact hds x h
    rcases List.mem_append.mp hc with h | h
    · rcases hpad c ((List.take_sublist _ _).subset h) with h2 | h2
      · right; left; exact h2
      · right; right; exact h2
    · rcases List.mem_cons.mp h with h2 | h2
      · left; exact h2
      · rcases hpad c ((List.drop_sublist _ _).subset h2) with h3 | h3
        · right; left; exact h3
        · right; right; exact h3
  · rcases List.mem_append.mp hc with h | h
    · right; right; exact hds c h
    · right; left; exact List.eq_of_mem_replicate h

theorem withExpOf_count_dot {t : DecTuple} (hv : t.Valid) :
    (withExpOf t).count '.' ≤ 1 := by
  unfold withExpOf
  dsimp only
  have hds : (t.digits.map digitChar).count '.' = 0 := by
    rw [List.count_eq_zero]
    intro hmem
    obtain ⟨d, hd, he⟩ := List.mem_map.mp hmem
    exact (digitChar_ne (hv.2.1 d hd)).1 he
  have hrep : ∀ n, (List.replicate n '0').count '.' = 0 := by
    intro n
    rw [List.count_eq_zero]
    intro hmem
    have := List.eq_of_mem_replicate hmem
    simp at this
  split
  · rw [List.count_append, List.count_cons]
    have hpad : (List.replicate (t.exp.natAbs - (t.digits.map digitChar).length) '0' ++
        t.digits.map digitChar).count '.' = 0 := by
      rw [List.count_append, hds, hrep]
    have h1 : ((List.replicate (t.exp.natAbs - (t.digits.map digitChar).length) '0' ++
        t.digits.map digitChar).take
          ((List.replicate (t.exp.natAbs - (t.digits.map digitChar).length) '0' ++
            t.digits.map digitChar).length - t.exp.natAbs)).count '.' = 0 := by
      have := (List.take_sublist ((List.replicate (t.exp.natAbs -
        (t.digits.map digitChar).length) '0' ++ t.digits.map digitChar).length - t.exp.natAbs)
        (List.replicate (t.exp.natAbs - (t.digits.map digitChar).length) '0' ++
          t.digits.map digitChar)).count_le '.'
      omega
    have h2 : ((List.replicate (t.exp.natAbs - (t.digits.map digitChar).length) '0' ++
        t.digits.map digitChar).drop
          ((List.replicate (t.exp.natAbs - (t.digits.map digitChar).length) '0' ++
            t.digits.map digitChar).length - t.exp.natAbs)).count '.' = 0 := by
      have := (List.drop_sublist ((List.replicate (t.exp.natAbs -
        (t.digits.map digitChar).length) '0' ++ t.digits.map digitChar).length - t.exp.natAbs)
        (List.replicate (t.exp.natAbs - (t.digits.map digitChar).length) '0' ++
          t.digits.map digitChar)).count_le '.'
      omega
    rw [h1, h2]
    simp
  · rw [List.count_append, hds, hrep]
    simp

theorem format_core_set_sign (t : DecTuple) (b : Bool) :
    format_core { sign := b, digits := t.digits, exp := t.exp } = format_core t := rfl

theorem format_core_no_dash {t : DecTuple} (hv : t.Valid) : '-' ∉ format_core t := by
  intro hc
  rw [format_core_eq] at hc
  rcases postTrim_mem hc with h | h
  · simp at h
  · rcases withExpOf_mem h with h2 | h2 | ⟨d, hd, h2⟩
    · simp at h2
    · simp at h2
    · exact (digitChar_ne (hv.2.1 d hd)).2.1 h2.symm

theorem format_core_no_exp_chars {t : DecTuple} (hv : t.Valid) :
    ∀ c ∈ format_core t, c ≠ 'e' ∧ c ≠ 'E' := by
  intro c hc
  rw [format_core_eq] at hc
  rcases postTrim_mem hc with h | h
  · subst h; exact ⟨by decide, by decide⟩
  · rcases withExpOf_mem h with h2 | h2 | ⟨d, hd, h2⟩
    · subst h2; exact ⟨by decide, by decide⟩
    · subst h2; exact ⟨by decide, by decide⟩
    · subst h2
      exact ⟨(digitChar_ne (hv.2.1 d hd)).2.2.1, (digitChar_ne (hv.2.1 d hd)).2.2.2.1⟩

theorem format_core_ne_nil (t : DecTuple) : format_core t ≠ [] := by
  rw [format_core_eq]; exact postTrim_ne_nil _

theorem format_core_head (t : DecTuple) :
    format_core t = ['0'] ∨ ∀ c, (format_core t).head? = some c → c ≠ '0' := by
  rw [format_core_eq]; exact postTrim_head

theorem format_core_last_dot {t : DecTuple} (hdot : '.' ∈ format_core t) :
    ∀ c, (format_core t).getLast? = some c → c ≠ '0' := by
  rw [format_core_eq] at hdot ⊢; exact postTrim_last_dot hdot

theorem format_core_count_dot {t : DecTuple} (hv : t.Valid) :
    (format_core t).count '.' ≤ 1 := by
  rw [format_core_eq]
  exact le_trans (postTrim_count_dot _) (withExpOf_count_dot hv)

theorem format_decimal_filter_dash {t : DecTuple} (hv : t.Valid) :
    (format_decimal t).filter (fun c => c ≠ '-') = format_core t := by
  cases hsign : t.sign <;>
    simp [format_decimal, hsign, List.filter_append] <;>
    exact fun a ha he => format_core_no_dash hv (he ▸ ha)

theorem format_decimal_head_sign {t : DecTuple} (hv : t.Valid) :
    ((format_decimal t).head? = some '-') ↔ t.sign = true := by
  cases hsign : t.sign
  · simp only [format_decimal, hsign, if_neg Bool.false_ne_true, List.nil_append]
    constructor
    · intro h
      exact absurd (List.mem_of_mem_head? h) (format_core_no_dash hv)
    · intro h; cases h
  · simp [format_decimal, hsign]

/-- The central normal form of `number_size` on a valid tuple: measure the
unsigned canonical form, add overhead and sign bytes, clamp at 21. -/
theorem number_size_t_eq {t : DecTuple} (hv : t.Valid) :
    number_size_t t =
      if 21 < measure_number (format_core t) + 1 + (if t.sign then 1 else 0) then 21
      else measure_number (format_core t) + 1 + (if t.sign then 1 else 0) := by
  unfold number_size_t number_size_canonical
  dsimp only
  rw [format_decimal_filter_dash hv]
  simp only [format_decimal_head_sign hv]
  cases hsign : t.sign <;> simp [hsign]

theorem number_size_canonical_pos (s : List Char) : 1 ≤ number_size_canonical s := by
  unfold number_size_canonical
  dsimp only
  split <;> split <;> omega

theorem number_size_canonical_le21 (s : List Char) : number_size_canonical s ≤ 21 := by
  unfold number_size_canonical
  dsimp only
  split <;> split <;> omega

theorem digitVal_lt_ten {c : Char} (h : c.isDigit) : digitVal c < 10 := by
  simp [Char.isDigit] at h
  obtain ⟨h1, h2⟩ := h
  rw [UInt32.le_def] at h1 h2
  unfold digitVal Char.toNat
  have : c.val.toNat ≤ 57 := by exact_mod_cast h2
  omega

theorem mkTuple_valid (sg : Bool) (ip fp : List Char) (e : Int)
    (hip : ∀ c ∈ ip, c.isDigit) (hfp : ∀ c ∈ fp, c.isDigit) :
    (mkTuple sg ip fp e).Valid := by
  unfold mkTuple DecTuple.Valid
  dsimp only
  split
  · refine ⟨by simp, by simp, by simp⟩
  · rename_i hne
    refine ⟨hne, ?_, ?_⟩
    · intro d hd
      have hd2 : d ∈ (ip ++ fp).map digitVal := (List.dropWhile_sublist _).subset hd
      obtain ⟨c, hc, he⟩ := List.mem_map.mp hd2
      subst he
      rcases List.mem_append.mp hc with h | h
      · exact digitVal_lt_ten (hip c h)
      · exact digitVal_lt_ten (hfp c h)
    · intro hhead
      have := head?_dropWhile_nsat _ _ hhead
      simp at this

theorem parseCoeff_digits {s ip fp r : List Char}
    (h : parseCoeff s = some (ip, fp, r)) :
    (∀ c ∈ ip, c.isDigit) ∧ (∀ c ∈ fp, c.isDigit) := by
  unfold parseCoeff at h
  dsimp only at h
  split at h
  · rename_i r0 heq
    split at h
    · cases h
    · injection h with h1
      have hip : List.takeWhile Char.isDigit s = ip := congrArg Prod.fst h1
      have hfp : List.takeWhile Char.isDigit r0 = fp := congrArg (fun p => p.2.1) h1
      constructor
      · intro c hc; rw [← hip] at hc; exact List.mem_takeWhile_imp hc
      · intro c hc; rw [← hfp] at hc; exact List.mem_takeWhile_imp hc
  · split at h
    · cases h
    · injection h with h1
      have hip : List.takeWhile Char.isDigit s = ip := congrArg Prod.fst h1
      have hfp : ([] : List Char) = fp := congrArg (fun p => p.2.1) h1
      constructor
      · intro c hc; rw [← hip] at hc; exact List.mem_takeWhile_imp hc
      · intro c hc; rw [← hfp] at hc; cases hc

theorem parseDecimal_valid {n : List Char} {t : DecTuple}
    (h : parseDecimal n = some t) : t.Valid := by
  unfold parseDecimal at h
  dsimp only at h
  cases hq : parseCoeff (parseSign n).2 with
  | none => rw [hq] at h; cases h
  | some trip =>
    obtain ⟨ip, fp, r2⟩ := trip
    rw [hq] at h
    dsimp only at h
    cases hpe : parseExp r2 with
    | none => rw [hpe] at h; cases h
    | some e =>
      rw [hpe] at h
      dsimp only at h
      injection h with h1
      subst h1
      exact mkTuple_valid _ _ _ _ (parseCoeff_digits hq).1 (parseCoeff_digits hq).2

/-- Prepending a `'-'` sign to an unsigned numeric literal parses to the
same tuple with the sign flag set. -/
theorem parseDecimal_neg {n : List Char} {t : DecTuple}
    (h : parseDecimal n = some t) (hs : t.sign = false) (hp : n.head? ≠ some '+') :
    parseDecimal ('-' :: n) = some { t with sign := true } := by
  have hps : parseSign n = (false, n) := by
    cases n with
    | nil => rfl
    | cons c rest =>
      by_cases hc1 : c = '-'
      · exfalso
        subst hc1
        unfold parseDecimal at h
        dsimp only at h
        rw [show parseSign ('-' :: rest) = (true, rest) from by simp [parseSign]] at h
        dsimp only at h
        cases hq : parseCoeff rest with
        | none => rw [hq] at h; cases h
        | some trip =>
          obtain ⟨ip, fp, r2⟩ := trip
          rw [hq] at h
          dsimp only at h
          cases hpe : parseExp r2 with
          | none => rw [hpe] at h; cases h
          | some e =>
            rw [hpe] at h
            dsimp only at h
            injection h with h1
            rw [← h1] at hs
            simp [mkTuple] at hs
      · by_cases hc2 : c = '+'
        · exact absurd (by rw [hc2]; rfl) hp
        · simp [parseSign, hc1, hc2]
  unfold parseDecimal at h ⊢
  dsimp only at h ⊢
  rw [show parseSign ('-' :: n) = (true, n) from by simp [parseSign]]
  rw [hps] at h
  dsimp only at h ⊢
  cases hq : parseCoeff n with
  | none => rw [hq] at h; cases h
  | some trip =>
    obtain ⟨ip, fp, r2⟩ := trip
    rw [hq] at h
    dsimp only at h ⊢
    cases hpe : parseExp r2 with
    | none => rw [hpe] at h; cases h
    | some e =>
      rw [hpe] at h
      dsimp only at h
      injection h with h1
      rw [← h1]
      simp [mkTuple]

theorem number_size_parsed {n : List Char} {t : DecTuple}
    (h : parseDecimal n = some t) : number_size n = .ok (number_size_t t) := by
  unfold number_size
  rw [h]
  rfl

/-- C1 (counterexample): at the input "-0" the code and the spec's
algorithm disagree.  The code canonicalizes "-0" to "-0" and charges the
extra sign byte, returning 2; the spec's rule "add 1 more byte if the
value is negative" yields 1, because -0 is not a negative value. -/
theorem c1_counterexample :
    parseDecimal ("-0".toList) = some ⟨true, [0], 0⟩ ∧
    number_size ("-0".toList) = .ok 2 ∧
    numberSizeSpec ⟨true, [0], 0⟩ = 1 := by
  refine ⟨by decide, by decide, by decide⟩

/-- C1 (amended): for every valid decimal string, `number_size` equals the
spec's packed-decimal algorithm with its sign rule read as "add 1 more
byte if the canonical string bears a '-' sign"; moreover any value with 40
or more significant digits is clamped to exactly 21, and
`number_size("0") = 1`. -/
theorem c1_amended (n : List Char) (t : DecTuple) (hp : parseDecimal n = some t) :
    number_size n = .ok (numberSizeSpecAmended t) ∧
    (40 ≤ sigDigits t → number_size n = .ok 21) ∧
    number_size ("0".toList) = .ok 1 := by
  have hv := parseDecimal_valid hp
  refine ⟨?_, ?_, by decide⟩
  · rw [number_size_parsed hp]
    refine congrArg Except.ok ?_
    rw [number_size_t_eq hv]
    unfold numberSizeSpecAmended specMeasure
    dsimp only
    rw [Nat.min_def]
    split_ifs <;> omega
  · intro hsig
    rw [number_size_parsed hp]
    refine congrArg Except.ok ?_
    rw [number_size_t_eq hv]
    have hm := measure_number_ge_sig (format_core t) (format_core_count_dot hv)
    unfold sigDigits at hsig
    have h20 : 20 ≤ measure_number (format_core t) := le_trans (by omega) hm
    split_ifs <;> omega

/-- C1 (witness): the amended claim evaluated at "5" and at a 41-digit
number. -/
theorem c1_witness :
    number_size ("5".toList) = .ok (numberSizeSpecAmended ⟨false, [5], 0⟩) ∧
    number_size ("12345678901234567890123456789012345678901".toList) = .ok 21 := by
  constructor
  · exact (c1_amended ("5".toList) ⟨false, [5], 0⟩ (by decide)).1
  · exact (c1_amended ("12345678901234567890123456789012345678901".toList)
      ⟨false, [1,2,3,4,5,6,7,8,9,0,1,2,3,4,5,6,7,8,9,0,1,2,3,4,5,6,7,8,9,0,1,2,3,4,5,6,7,8,9,0,1], 0⟩
      (by decide)).2.1 (by decide)

/-- C4 (counterexample): `format_decimal("-0")` returns "-0", which keeps
the sign although the denoted value 0 is not negative and non-zero. -/
theorem c4_counterexample :
    parseDecimal ("-0".toList) = some ⟨true, [0], 0⟩ ∧
    decValue ⟨true, [0], 0⟩ = 0 ∧
    format_decimal_str ("-0".toList) = some ('-' :: '0' :: []) := by
  refine ⟨by decide, ?_, by decide⟩
  simp [decValue]

/-- C4 (amended): the canonical form has no exponent notation, no leading
zeros except a lone "0", no trailing zeros after a decimal point, and the
sign is emitted exactly when the parsed sign flag is set (so
`format_decimal("-0") = "-0"` keeps its sign). -/
theorem c4_amended (n : List Char) (t : DecTuple) (hp : parseDecimal n = some t) :
    (∀ c ∈ format_decimal t, c ≠ 'e' ∧ c ≠ 'E') ∧
    (((format_decimal t).head? = some '-') ↔ t.sign = true) ∧
    (format_core t = ['0'] ∨ ∀ c, (format_core t).head? = some c → c ≠ '0') ∧
    ('.' ∈ format_core t → ∀ c, (format_core t).getLast? = some c → c ≠ '0') ∧
    format_decimal t = (if t.sign then ['-'] else []) ++ format_core t := by
  have hv := parseDecimal_valid hp
  refine ⟨?_, format_decimal_head_sign hv, format_core_head t,
    fun hd => format_core_last_dot hd, rfl⟩
  intro c hc
  unfold format_decimal at hc
  rcases List.mem_append.mp hc with h | h
  · cases hsign : t.sign
    · rw [hsign] at h; simp at h
    · rw [hsign] at h
      simp at h
      subst h
      exact ⟨by decide, by decide⟩
  · exact format_core_no_exp_chars hv c h

/-- C4 (witness): the amended claim evaluated at "-12.30". -/
theorem c4_witness :
    parseDecimal ("-12.30".toList) = some ⟨true, [1, 2, 3, 0], -2⟩ ∧
    (((format_decimal ⟨true, [1, 2, 3, 0], -2⟩).head? = some '-') ↔
      (⟨true, [1, 2, 3, 0], -2⟩ : DecTuple).sign = true) := by
  refine ⟨by decide, (c4_amended ("-12.30".toList) _ (by decide)).2.1⟩

/-- C7 (counterexample): "150" and "150.0" denote the same decimal value,
yet their canonical forms differ ("150" versus "150.") and their sizes
differ (2 versus 3 bytes). -/
theorem c7_counterexample :
    parseDecimal ("150".toList) = some ⟨false, [1, 5, 0], 0⟩ ∧
    parseDecimal ("150.0".toList) = some ⟨false, [1, 5, 0, 0], -1⟩ ∧
    decValue ⟨false, [1, 5, 0], 0⟩ = decValue ⟨false, [1, 5, 0, 0], -1⟩ ∧
    number_size ("150".toList) = .ok 2 ∧
    number_size ("150.0".toList) = .ok 3 := by
  refine ⟨by decide, by decide, ?_, by decide, by decide⟩
  simp [decValue]
  norm_num

/-- C7 (amended): numeric strings with the same canonical form get the
same size; in particular "005.10" and "5.1" both canonicalize to "5.1" and
both measure 3 bytes. -/
theorem c7_amended :
    (∀ (n1 n2 : List Char) (t1 t2 : DecTuple),
        parseDecimal n1 = some t1 → parseDecimal n2 = some t2 →
        format_decimal t1 = format_decimal t2 →
        number_size n1 = number_size n2) ∧
    format_decimal_str ("005.10".toList) = format_decimal_str ("5.1".toList) ∧
    number_size ("005.10".toList) = .ok 3 ∧
    number_size ("5.1".toList) = .ok 3 := by
  refine ⟨?_, by decide, by decide, by decide⟩
  intro n1 n2 t1 t2 h1 h2 hf
  rw [number_size_parsed h1, number_size_parsed h2]
  unfold number_size_t
  rw [hf]

/-- C7 (witness): the amended claim evaluated at "005.10" and "5.1". -/
theorem c7_witness :
    format_decimal ⟨false, [5, 1, 0], -2⟩ = format_decimal ⟨false, [5, 1], -1⟩ ∧
    number_size ("005.10".toList) = number_size ("5.1".toList) := by
  refine ⟨by decide, c7_amended.1 ("005.10".toList) ("5.1".toList)
    ⟨false, [5, 1, 0], -2⟩ ⟨false, [5, 1], -1⟩ (by decide) (by decide) (by decide)⟩

/-- C8 (counterexample): for the already-negative string "-5", the string
denoting its negation "5" is one byte SMALLER, not one byte larger. -/
theorem c8_counterexample :
    number_size ("-5".toList) = .ok 3 ∧
    number_size ("5".toList) = .ok 2 ∧
    (2 : Nat) ≠ 3 + 1 := by
  refine ⟨by decide, by decide, by decide⟩

/-- C8 (amended): prepending a '-' sign to a non-negative numeric string
adds exactly 1 byte, unless the unsigned size is already at the 21-byte
cap, in which case the signed size is also 21. -/
theorem c8_amended (n : List Char) (t : DecTuple) (k : Nat)
    (hp : parseDecimal n = some t) (hs : t.sign = false) (hplus : n.head? ≠ some '+')
    (hk : number_size n = .ok k) :
    number_size ('-' :: n) = .ok (if k = 21 then 21 else k + 1) := by
  have hv := parseDecimal_valid hp
  have hneg := parseDecimal_neg hp hs hplus
  have hv2 : ({ t with sign := true } : DecTuple).Valid := hv
  rw [number_size_parsed hp] at hk
  injection hk with hk1
  rw [number_size_parsed hneg]
  have h2 : number_size_t ({ t with sign := true }) =
      if 21 < measure_number (format_core t) + 1 + 1 then 21
      else measure_number (format_core t) + 1 + 1 := by
    rw [number_size_t_eq hv2]
    simp [format_core_set_sign]
  rw [h2]
  rw [number_size_t_eq hv, hs] at hk1
  simp only [Bool.false_eq_true, if_false, Nat.add_zero] at hk1
  split_ifs at hk1 ⊢ <;> exact congrArg Except.ok (by omega)

/-- C8 (witness): the amended claim evaluated at "5". -/
theorem c8_witness :
    number_size ("5".toList) = .ok 2 ∧
    number_size ('-' :: "5".toList) = .ok 3 := by
  constructor
  · decide
  · have := c8_amended ("5".toList) ⟨false, [5], 0⟩ 2 (by decide) (by decide)
      (by decide) (by decide)
    simpa using this

/-! ### Attribute-sizing branch lemmas -/

theorem attr_size_obj (fields : List (List Char × JVal)) :
    attr_size (JVal.jobj fields) = attr_size_fields fields := by
  simp [attr_size]

theorem attr_size_S (s : List Char) :
    attr_size (AttrVal.S s).toJVal = .ok (string_size s) := by
  simp [AttrVal.toJVal, attr_size, attr_size_fields, hasKey, lookupJ, sizeS]

theorem attr_size_N (n : List Char) :
    attr_size (AttrVal.N n).toJVal = number_size n := by
  simp [AttrVal.toJVal, attr_size, attr_size_fields, hasKey, lookupJ, sizeN,
    tagS, tagN]

theorem attr_size_B (b : List Char) :
    attr_size (AttrVal.B b).toJVal = .ok (binary_size b) := by
  simp [AttrVal.toJVal, attr_size, attr_size_fields, hasKey, lookupJ, sizeB,
    tagS, tagN, tagB]

theorem attr_size_Bool (b : Bool) :
    attr_size (AttrVal.Bool b).toJVal = .ok 1 := by
  simp [AttrVal.toJVal, attr_size, attr_size_fields, hasKey, lookupJ,
    tagS, tagN, tagB, tagBOOL]

theorem attr_size_Null : attr_size AttrVal.Null.toJVal = .ok 1 := by
  simp [AttrVal.toJVal, attr_size, attr_size_fields, hasKey, lookupJ,
    tagS, tagN, tagB, tagBOOL, tagNULL]

theorem attr_size_M (entries : List (List Char × AttrVal)) :
    attr_size (AttrVal.M entries).toJVal =
      match attr_size_entries (toJValEntries entries) with
      | .error e => .error e
      | .ok s => .ok (3 + s) := by
  simp [AttrVal.toJVal, attr_size, attr_size_fields, hasKey, lookupJ,
    tagS, tagN, tagB, tagBOOL, tagNULL, tagM]

theorem attr_size_L (elems : List AttrVal) :
    attr_size (AttrVal.L elems).toJVal =
      match attr_size_elems (toJValElems elems) with
      | .error e => .error e
      | .ok s => .ok (3 + s) := by
  simp [AttrVal.toJVal, attr_size, attr_size_fields, hasKey, lookupJ,
    tagS, tagN, tagB, tagBOOL, tagNULL, tagM, tagL]

theorem attr_size_SS (elems : List (List Char)) :
    attr_size (AttrVal.SS elems).toJVal = sizeSSElems (elems.map JVal.jstr) := by
  simp [AttrVal.toJVal, attr_size, attr_size_fields, hasKey, lookupJ,
    tagS, tagN, tagB, tagBOOL, tagNULL, tagM, tagL, tagSS]

theorem attr_size_NS (elems : List (List Char)) :
    attr_size (AttrVal.NS elems).toJVal = sizeNSElems (elems.map JVal.jstr) := by
  simp [AttrVal.toJVal, attr_size, attr_size_fields, hasKey, lookupJ,
    tagS, tagN, tagB, tagBOOL, tagNULL, tagM, tagL, tagSS, tagNS]

theorem attr_size_BS (elems : List (List Char)) :
    attr_size (AttrVal.BS elems).toJVal = sizeBSElems (elems.map JVal.jstr) := by
  simp [AttrVal.toJVal, attr_size, attr_size_fields, hasKey, lookupJ,
    tagS, tagN, tagB, tagBOOL, tagNULL, tagM, tagL, tagSS, tagNS, tagBS]

theorem sizeSSElems_map (ss : List (List Char)) :
    sizeSSElems (ss.map JVal.jstr) = .ok ((ss.map string_size).sum) := by
  induction ss with
  | nil => rfl
  | cons s rest ih => simp [sizeSSElems, ih]

theorem sizeBSElems_map (bs : List (List Char)) :
    sizeBSElems (bs.map JVal.jstr) = .ok ((bs.map binary_size).sum) := by
  induction bs with
  | nil => rfl
  | cons b rest ih => simp [sizeBSElems, ih]

theorem number_size_ok_bounds {n : List Char} {k : Nat}
    (h : number_size n = .ok k) : 1 ≤ k ∧ k ≤ 21 := by
  unfold number_size at h
  cases hp : parseDecimal n with
  | none => rw [hp] at h; cases h
  | some t =>
    rw [hp] at h
    dsimp only at h
    injection h with h1
    rw [← h1]
    exact ⟨number_size_canonical_pos _, number_size_canonical_le21 _⟩

theorem sizeNSElems_map {ns : List (List Char)} {ks : List Nat}
    (h : List.Forall₂ (fun n k => number_size n = .ok k) ns ks) :
    sizeNSElems (ns.map JVal.jstr) = .ok ks.sum := by
  induction h with
  | nil => rfl
  | cons h1 h2 ih =>
    simp only [List.map_cons, sizeNSElems]
    rw [h1, ih]
    simp

theorem attr_size_entries_sum {entries : List (List Char × AttrVal)} {ks : List Nat}
    (h : List.Forall₂ (fun (e : List Char × AttrVal) k => attr_size e.2.toJVal = .ok k)
      entries ks) :
    attr_size_entries (toJValEntries entries) =
      .ok ((entries.map (fun e => string_size e.1)).sum + ks.sum + entries.length) := by
  induction h with
  | nil => simp [toJValEntries, attr_size_entries]
  | @cons e k es kss h1 h2 ih =>
    obtain ⟨name, v⟩ := e
    dsimp only at h1
    simp only [toJValEntries, attr_size_entries]
    rw [h1, ih]
    refine congrArg Except.ok ?_
    simp only [List.map_cons, List.sum_cons, List.length_cons]
    omega

theorem attr_size_elems_sum {elems : List AttrVal} {ks : List Nat}
    (h : List.Forall₂ (fun (v : AttrVal) k => attr_size v.toJVal = .ok k) elems ks) :
    attr_size_elems (toJValElems elems) = .ok (ks.sum + elems.length) := by
  induction h with
  | nil => simp [toJValElems, attr_size_elems]
  | @cons v k es kss h1 h2 ih =>
    simp only [toJValElems, attr_size_elems]
    rw [h1, ih]
    refine congrArg Except.ok ?_
    simp only [List.sum_cons, List.length_cons]
    omega

theorem item_size_sum {item : List (List Char × JVal)} {ks : List Nat}
    (h : List.Forall₂ (fun (p : List Char × JVal) k => attr_size p.2 = .ok k) item ks) :
    item_size item = .ok ((item.map (fun p => string_size p.1)).sum + ks.sum) := by
  induction h with
  | nil => rfl
  | @cons p k ps kss h1 h2 ih =>
    obtain ⟨name, v⟩ := p
    dsimp only at h1
    simp only [item_size]
    rw [h1, ih]
    refine congrArg Except.ok ?_
    simp only [List.map_cons, List.sum_cons]
    omega

/-- C5 (confirmed): `attr_size` dispatches by variant as specified — Map is
3 plus per-entry (name bytes + value size + 1), List is 3 plus per-element
(size + 1), the set variants are plain sums with no container overhead,
Bool and Null are exactly 1 — and the item {"m":{"M":{}}} measures
string_size("m") + 3. -/
theorem c5_dispatch :
    (∀ (entries : List (List Char × AttrVal)) (ks : List Nat),
        List.Forall₂ (fun (e : List Char × AttrVal) k => attr_size e.2.toJVal = .ok k)
          entries ks →
        attr_size (AttrVal.M entries).toJVal =
          .ok (3 + ((entries.map (fun e => string_size e.1)).sum + ks.sum +
            entries.length))) ∧
    (∀ (elems : List AttrVal) (ks : List Nat),
        List.Forall₂ (fun (v : AttrVal) k => attr_size v.toJVal = .ok k) elems ks →
        attr_size (AttrVal.L elems).toJVal = .ok (3 + (ks.sum + elems.length))) ∧
    (∀ ss : List (List Char),
        attr_size (AttrVal.SS ss).toJVal = .ok ((ss.map string_size).sum)) ∧
    (∀ (ns : List (List Char)) (ks : List Nat),
        List.Forall₂ (fun n k => number_size n = .ok k) ns ks →
        attr_size (AttrVal.NS ns).toJVal = .ok ks.sum) ∧
    (∀ bs : List (List Char),
        attr_size (AttrVal.BS bs).toJVal = .ok ((bs.map binary_size).sum)) ∧
    (∀ b, attr_size (AttrVal.Bool b).toJVal = .ok 1) ∧
    (attr_size AttrVal.Null.toJVal = .ok 1) ∧
    item_size [(['m'], (AttrVal.M []).toJVal)] = .ok (string_size ['m'] + 3) := by
  refine ⟨?_, ?_, ?_, ?_, ?_, attr_size_Bool, attr_size_Null, ?_⟩
  · intro entries ks h
    rw [attr_size_M, attr_size_entries_sum h]
  · intro elems ks h
    rw [attr_size_L, attr_size_elems_sum h]
  · intro ss
    rw [attr_size_SS, sizeSSElems_map]
  · intro ns ks h
    rw [attr_size_NS, sizeNSElems_map h]
  · intro bs
    rw [attr_size_BS, sizeBSElems_map]
  · simp only [item_size]
    rw [show (AttrVal.M []).toJVal = JVal.jobj [(tagM, JVal.jobj [])] from rfl]
    rw [attr_size_obj]
    simp [attr_size_fields, hasKey, lookupJ, tagS, tagN, tagB, tagBOOL, tagNULL, tagM,
      attr_size_entries]

/-- C5 (witness): the dispatch rules evaluated on a one-entry map and a
one-element number set. -/
theorem c5_witness :
    attr_size (AttrVal.M [(['k'], AttrVal.Bool true)]).toJVal =
      .ok (3 + (string_size ['k'] + 1 + 1)) ∧
    attr_size (AttrVal.NS [['4', '2']]).toJVal = .ok 2 := by
  constructor
  · have h := c5_dispatch.1 [(['k'], AttrVal.Bool true)] [1]
      (List.Forall₂.cons (attr_size_Bool true) List.Forall₂.nil)
    simpa using h
  · have h := c5_dispatch.2.2.2.1 [['4', '2']] [2]
      (List.Forall₂.cons (by decide) List.Forall₂.nil)
    simpa using h

/-- C6 (confirmed): `item_size` sums UTF-8 name lengths plus attribute
sizes; the item {"id":{"S":"abc"},"count":{"N":"42"}} measures 12 bytes,
with read_units 0.5 and write_units 1. -/
theorem c6_item_size :
    (∀ (item : List (List Char × JVal)) (ks : List Nat),
        List.Forall₂ (fun (p : List Char × JVal) k => attr_size p.2 = .ok k) item ks →
        item_size item = .ok ((item.map (fun p => string_size p.1)).sum + ks.sum)) ∧
    item_size [("id".toList, (AttrVal.S "abc".toList).toJVal),
               ("count".toList, (AttrVal.N "42".toList).toJVal)] = .ok 12 ∧
    (generate_stats_record 12).read_units = 1 / 2 ∧
    (generate_stats_record 12).write_units = 1 := by
  refine ⟨fun item ks h => item_size_sum h, ?_, ?_, ?_⟩
  · simp only [item_size]
    rw [show (AttrVal.S "abc".toList).toJVal = JVal.jobj [(tagS, JVal.jstr "abc".toList)]
      from rfl]
    rw [show (AttrVal.N "42".toList).toJVal = JVal.jobj [(tagN, JVal.jstr "42".toList)]
      from rfl]
    rw [attr_size_obj, attr_size_obj]
    rw [show attr_size_fields [(tagS, JVal.jstr "abc".toList)] =
      .ok (string_size "abc".toList) from by
        simp [attr_size_fields, hasKey, lookupJ, sizeS]]
    rw [show attr_size_fields [(tagN, JVal.jstr "42".toList)] =
      number_size "42".toList from by
        simp [attr_size_fields, hasKey, lookupJ, sizeN, tagS, tagN]]
    rw [show number_size "42".toList = .ok 2 from by decide]
    decide
  · simp [generate_stats_record]
  · simp [generate_stats_record]

/-- C6 (witness): the summation rule evaluated on a one-attribute item. -/
theorem c6_witness :
    item_size [(['x'], (AttrVal.Bool true).toJVal)] =
      .ok ((([(['x'], (AttrVal.Bool true).toJVal)]).map
        (fun p => string_size p.1)).sum + ([1] : List Nat).sum) := by
  exact c6_item_size.1 [(['x'], (AttrVal.Bool true).toJVal)] [1]
    (List.Forall₂.cons (attr_size_Bool true) List.Forall₂.nil)

/-- C3 (counterexample): the String attribute with empty payload is
accepted by `attr_size` and measures 0 bytes, refuting "size at least 1"
(it is neither an empty Map nor an empty List). -/
theorem c3_counterexample :
    attr_size (AttrVal.S []).toJVal = .ok 0 ∧ (0 : Nat) < 1 := by
  constructor
  · rw [attr_size_S]
    decide
  · decide

/-- C3 (amended): every accepted AttributeValue has size at least 1,
except that an empty Map and an empty List have size exactly 3, and
String, Binary, StringSet, NumberSet, and BinarySet values whose payload
contributes zero bytes have size exactly 0. -/
theorem c3_amended (v : AttrVal) (n : Nat) (h : attr_size v.toJVal = .ok n) :
    ((v = AttrVal.M [] ∨ v = AttrVal.L []) → n = 3) ∧
    (zeroPayload v = false → 1 ≤ n) ∧
    (zeroPayload v = true → n = 0) := by
  cases v with
  | S s =>
    rw [attr_size_S] at h
    injection h with h1
    refine ⟨?_, ?_, ?_⟩
    · intro hc; rcases hc with hc | hc <;> cases hc
    · intro hz
      simp [zeroPayload] at hz
      cases s with
      | nil => simp at hz
      | cons c rest =>
        rw [← h1]
        unfold string_size
        simp only [List.map_cons, List.sum_cons]
        have := Char.utf8Size_pos c
        omega
    · intro hz
      simp [zeroPayload] at hz
      subst hz
      rw [← h1]
      rfl
  | N nn =>
    rw [attr_size_N] at h
    have hb := (number_size_ok_bounds h).1
    refine ⟨?_, fun _ => hb, ?_⟩
    · intro hc; rcases hc with hc | hc <;> cases hc
    · intro hz
      simp [zeroPayload] at hz
  | B b =>
    rw [attr_size_B] at h
    injection h with h1
    refine ⟨?_, ?_, ?_⟩
    · intro hc; rcases hc with hc | hc <;> cases hc
    · intro hz
      simp [zeroPayload] at hz
      omega
    · intro hz
      simp [zeroPayload] at hz
      omega
  | Bool b =>
    rw [attr_size_Bool] at h
    injection h with h1
    refine ⟨?_, ?_, ?_⟩
    · intro hc; rcases hc with hc | hc <;> cases hc
    · intro hz; omega
    · intro hz
      simp [zeroPayload] at hz
  | Null =>
    rw [attr_size_Null] at h
    injection h with h1
    refine ⟨?_, ?_, ?_⟩
    · intro hc; rcases hc with hc | hc <;> cases hc
    · intro hz; omega
    · intro hz
      simp [zeroPayload] at hz
  | M entries =>
    rw [attr_size_M] at h
    cases he : attr_size_entries (toJValEntries entries) with
    | error e => rw [he] at h; cases h
    | ok s =>
      rw [he] at h
      injection h with h1
      refine ⟨?_, fun _ => by omega, ?_⟩
      · intro hc
        rcases hc with hc | hc
        · injection hc with hentries
          subst hentries
          simp [toJValEntries, attr_size_entries] at he
          omega
        · cases hc
      · intro hz
        simp [zeroPayload] at hz
  | L elems =>
    rw [attr_size_L] at h
    cases he : attr_size_elems (toJValElems elems) with
    | error e => rw [he] at h; cases h
    | ok s =>
      rw [he] at h
      injection h with h1
      refine ⟨?_, fun _ => by omega, ?_⟩
      · intro hc
        rcases hc with hc | hc
        · cases hc
        · injection hc with helems
          subst helems
          simp [toJValElems, attr_size_elems] at he
          omega
      · intro hz
        simp [zeroPayload] at hz
  | SS ss =>
    rw [attr_size_SS, sizeSSElems_map] at h
    injection h with h1
    refine ⟨?_, ?_, ?_⟩
    · intro hc; rcases hc with hc | hc <;> cases hc
    · intro hz
      simp only [zeroPayload, List.all_eq_false] at hz
      obtain ⟨s, hs, hne⟩ := hz
      have hsne : s ≠ [] := by
        intro hnil
        subst hnil
        simp at hne
      have hpos : 1 ≤ string_size s := by
        cases s with
        | nil => exact absurd rfl hsne
        | cons c rest =>
          unfold string_size
          simp only [List.map_cons, List.sum_cons]
          have := Char.utf8Size_pos c
          omega
      have hmem : string_size s ∈ ss.map string_size := List.mem_map_of_mem _ hs
      have := List.single_le_sum (fun x _ => Nat.zero_le x) _ hmem
      omega
    · intro hz
      simp only [zeroPayload, List.all_eq_true] at hz
      rw [← h1]
      apply List.sum_eq_zero_iff.mpr
      intro x hx
      obtain ⟨s, hs, he⟩ := List.mem_map.mp hx
      have := hz s hs
      rw [List.isEmpty_iff] at this
      subst this
      rw [← he]
      rfl
  | NS ns =>
    rw [attr_size_NS] at h
    refine ⟨?_, ?_, ?_⟩
    · intro hc; rcases hc with hc | hc <;> cases hc
    · intro hz
      simp [zeroPayload] at hz
      cases ns with
      | nil => simp at hz
      | cons x rest =>
        simp only [List.map_cons, sizeNSElems] at h
        cases hx : number_size x with
        | error e => rw [hx] at h; cases h
        | ok k =>
          rw [hx] at h
          cases hr : sizeNSElems (rest.map JVal.jstr) with
          | error e => rw [hr] at h; cases h
          | ok r =>
            rw [hr] at h
            injection h with h1
            have := (number_size_ok_bounds hx).1
            omega
    · intro hz
      simp [zeroPayload] at hz
      subst hz
      simp only [List.map_nil, sizeNSElems] at h
      injection h with h1
      omega
  | BS bs =>
    rw [attr_size_BS, sizeBSElems_map] at h
    injection h with h1
    refine ⟨?_, ?_, ?_⟩
    · intro hc; rcases hc with hc | hc <;> cases hc
    · intro hz
      simp only [zeroPayload, List.all_eq_false] at hz
      obtain ⟨b, hb, hne⟩ := hz
      have hpos : 1 ≤ binary_size b := by
        simp at hne
        omega
      have hmem : binary_size b ∈ bs.map binary_size := List.mem_map_of_mem _ hb
      have := List.single_le_sum (fun x _ => Nat.zero_le x) _ hmem
      omega
    · intro hz
      simp only [zeroPayload, List.all_eq_true] at hz
      rw [← h1]
      apply List.sum_eq_zero_iff.mpr
      intro x hx
      obtain ⟨b, hb, he⟩ := List.mem_map.mp hx
      have := hz b hb
      simp at this
      omega

/-- C3 (witness): the amended claim evaluated at a one-character string
attribute. -/
theorem c3_witness :
    attr_size (AttrVal.S ['a']).toJVal = .ok 1 ∧
    zeroPayload (AttrVal.S ['a']) = false ∧ (1 : Nat) ≤ 1 := by
  refine ⟨?_, by decide, ?_⟩
  · rw [attr_size_S]
    decide
  · exact (c3_amended (AttrVal.S ['a']) 1 (by rw [attr_size_S]; decide)).2.1 (by decide)

theorem attr_size_fields_unknown {fields : List (List Char × JVal)}
    (h : ∀ tg ∈ knownTags, hasKey tg fields = false) :
    attr_size_fields fields = .error .unknownType := by
  have hS := h tagS (by simp [knownTags])
  have hN := h tagN (by simp [knownTags])
  have hB := h tagB (by simp [knownTags])
  have hBOOL := h tagBOOL (by simp [knownTags])
  have hNULL := h tagNULL (by simp [knownTags])
  have hM := h tagM (by simp [knownTags])
  have hL := h tagL (by simp [knownTags])
  have hSS := h tagSS (by simp [knownTags])
  have hNS := h tagNS (by simp [knownTags])
  have hBS := h tagBS (by simp [knownTags])
  simp [attr_size_fields, hS, hN, hB, hBOOL, hNULL, hM, hL, hSS, hNS, hBS]

/-- C9 (confirmed): an attribute object carrying none of the ten known
type tags makes `attr_size` fail with the unrecognized-type error, and any
record containing such an attribute can never be sized successfully. -/
theorem c9_unknown_tag (fields : List (List Char × JVal))
    (h : ∀ tg ∈ knownTags, hasKey tg fields = false) :
    attr_size (JVal.jobj fields) = .error .unknownType ∧
    ∀ (item : List (List Char × JVal)) (name : List Char),
      (name, JVal.jobj fields) ∈ item → ∀ k, item_size item ≠ .ok k := by
  have herr : attr_size (JVal.jobj fields) = .error .unknownType := by
    rw [attr_size_obj]
    exact attr_size_fields_unknown h
  refine ⟨herr, ?_⟩
  intro item
  induction item with
  | nil => intro name hmem; cases hmem
  | cons p rest ih =>
    intro name hmem k hk
    obtain ⟨nm, v⟩ := p
    simp only [item_size] at hk
    rcases List.mem_cons.mp hmem with he | hm
    · have hv : v = JVal.jobj fields := congrArg Prod.snd he.symm
      rw [hv, herr] at hk
      cases hk
    · cases hv : attr_size v with
      | error e => rw [hv] at hk; cases hk
      | ok s =>
        rw [hv] at hk
        cases hr : item_size rest with
        | error e => rw [hr] at hk; cases hk
        | ok r => exact ih name hm r hr

/-- C9 (witness): the claim evaluated at the attribute {"X": ""} inside a
one-attribute record. -/
theorem c9_witness :
    attr_size (JVal.jobj [(['X'], JVal.jstr [])]) = .error .unknownType ∧
    ∀ k, item_size [(['a'], JVal.jobj [(['X'], JVal.jstr [])])] ≠ .ok k := by
  have h := c9_unknown_tag [(['X'], JVal.jstr [])]
    (by intro tg htg; fin_cases htg <;> decide)
  exact ⟨h.1, fun k => h.2 [(['a'], JVal.jobj [(['X'], JVal.jstr [])])] ['a']
    (by simp) k⟩

theorem dispatchTag_S (fields : List (List Char × JVal)) :
    dispatchTag tagS fields = sizeS (lookupJ tagS fields) := by
  unfold dispatchTag
  rw [if_pos rfl]

theorem dispatchTag_N (fields : List (List Char × JVal)) :
    dispatchTag tagN fields = sizeN (lookupJ tagN fields) := by
  unfold dispatchTag
  rw [if_neg (by decide), if_pos rfl]

theorem dispatchTag_B (fields : List (List Char × JVal)) :
    dispatchTag tagB fields = sizeB (lookupJ tagB fields) := by
  unfold dispatchTag
  rw [if_neg (by decide), if_neg (by decide), if_pos rfl]

theorem dispatchTag_BOOL (fields : List (List Char × JVal)) :
    dispatchTag tagBOOL fields = .ok 1 := by
  unfold dispatchTag
  rw [if_neg (by decide), if_neg (by decide), if_neg (by decide), if_pos rfl]

theorem dispatchTag_NULL (fields : List (List Char × JVal)) :
    dispatchTag tagNULL fields = .ok 1 := by
  unfold dispatchTag
  rw [if_neg (by decide), if_neg (by decide), if_neg (by decide), if_neg (by decide),
    if_pos rfl]

theorem dispatchTag_M (fields : List (List Char × JVal)) :
    dispatchTag tagM fields =
      match lookupJ tagM fields with
      | some (.jobj entries) =>
        match attr_size_entries entries with
        | .error e => .error e
        | .ok s => .ok (3 + s)
      | _ => .error .badPayload := by
  unfold dispatchTag
  rw [if_neg (by decide), if_neg (by decide), if_neg (by decide), if_neg (by decide),
    if_neg (by decide), if_pos rfl]

theorem dispatchTag_L (fields : List (List Char × JVal)) :
    dispatchTag tagL fields =
      match lookupJ tagL fields with
      | some (.jarr elems) =>
        match attr_size_elems elems with
        | .error e => .error e
        | .ok s => .ok (3 + s)
      | _ => .error .badPayload := by
  unfold dispatchTag
  rw [if_neg (by decide), if_neg (by decide), if_neg (by decide), if_neg (by decide),
    if_neg (by decide), if_neg (by decide), if_pos rfl]

theorem dispatchTag_SS (fields : List (List Char × JVal)) :
    dispatchTag tagSS fields =
      match lookupJ tagSS fields with
      | some (.jarr elems) => sizeSSElems elems
      | _ => .error .badPayload := by
  unfold dispatchTag
  rw [if_neg (by decide), if_neg (by decide), if_neg (by decide), if_neg (by decide),
    if_neg (by decide), if_neg (by decide), if_neg (by decide), if_pos rfl]

theorem dispatchTag_NS (fields : List (List Char × JVal)) :
    dispatchTag tagNS fields =
      match lookupJ tagNS fields with
      | some (.jarr elems) => sizeNSElems elems
      | _ => .error .badPayload := by
  unfold dispatchTag
  rw [if_neg (by decide), if_neg (by decide), if_neg (by decide), if_neg (by decide),
    if_neg (by decide), if_neg (by decide), if_neg (by decide), if_neg (by decide),
    if_pos rfl]

theorem dispatchTag_BS (fields : List (List Char × JVal)) :
    dispatchTag tagBS fields =
      match lookupJ tagBS fields with
      | some (.jarr elems) => sizeBSElems elems
      | _ => .error .badPayload := by
  unfold dispatchTag
  rw [if_neg (by decide), if_neg (by decide), if_neg (by decide), if_neg (by decide),
    if_neg (by decide), if_neg (by decide), if_neg (by decide), if_neg (by decide),
    if_neg (by decide), if_pos rfl]

/-- The top-level dispatch of `attr_size_fields` is entirely determined by
the first known tag present, in the source's check order. -/
theorem attr_size_fields_dispatch (fields : List (List Char × JVal)) :
    attr_size_fields fields =
      match firstKnownTag fields with
      | none => .error .unknownType
      | some tg => dispatchTag tg fields := by
  by_cases hS : hasKey tagS fields
  · rw [show firstKnownTag fields = some tagS from by
      simp [firstKnownTag, knownTags, List.find?, hS]]
    dsimp only
    rw [dispatchTag_S]
    simp [attr_size_fields, hS]
  · by_cases hN : hasKey tagN fields
    · rw [show firstKnownTag fields = some tagN from by
        simp [firstKnownTag, knownTags, List.find?, hS, hN]]
      dsimp only
      rw [dispatchTag_N]
      simp [attr_size_fields, hS, hN]
    · by_cases hB : hasKey tagB fields
      · rw [show firstKnownTag fields = some tagB from by
          simp [firstKnownTag, knownTags, List.find?, hS, hN, hB]]
        dsimp only
        rw [dispatchTag_B]
        simp [attr_size_fields, hS, hN, hB]
      · by_cases hBOOL : hasKey tagBOOL fields
        · rw [show firstKnownTag fields = some tagBOOL from by
            simp [firstKnownTag, knownTags, List.find?, hS, hN, hB, hBOOL]]
          dsimp only
          rw [dispatchTag_BOOL]
          simp [attr_size_fields, hS, hN, hB, hBOOL]
        · by_cases hNULL : hasKey tagNULL fields
          · rw [show firstKnownTag fields = some tagNULL from by
              simp [firstKnownTag, knownTags, List.find?, hS, hN, hB, hBOOL, hNULL]]
            dsimp only
            rw [dispatchTag_NULL]
            simp [attr_size_fields, hS, hN, hB, hBOOL, hNULL]
          · by_cases hM : hasKey tagM fields
            · rw [show firstKnownTag fields = some tagM from by
                simp [firstKnownTag, knownTags, List.find?, hS, hN, hB, hBOOL, hNULL, hM]]
              dsimp only
              rw [dispatchTag_M]
              simp only [attr_size_fields, hS, hN, hB, hBOOL, hNULL, hM,
                Bool.false_eq_true, if_false, if_true]
              cases hLk : lookupJ tagM fields with
              | none => rfl
              | some v => cases v <;> rfl
            · by_cases hL : hasKey tagL fields
              · rw [show firstKnownTag fields = some tagL from by
                  simp [firstKnownTag, knownTags, List.find?, hS, hN, hB, hBOOL, hNULL,
                    hM, hL]]
                dsimp only
                rw [dispatchTag_L]
                simp only [attr_size_fields, hS, hN, hB, hBOOL, hNULL, hM, hL,
                  Bool.false_eq_true, if_false, if_true]
                cases hLk : lookupJ tagL fields with
                | none => rfl
                | some v => cases v <;> rfl
              · by_cases hSS : hasKey tagSS fields
                · rw [show firstKnownTag fields = some tagSS from by
                    simp [firstKnownTag, knownTags, List.find?, hS, hN, hB, hBOOL, hNULL,
                      hM, hL, hSS]]
                  dsimp only
                  rw [dispatchTag_SS]
                  simp [attr_size_fields, hS, hN, hB, hBOOL, hNULL, hM, hL, hSS]
                · by_cases hNS : hasKey tagNS fields
                  · rw [show firstKnownTag fields = some tagNS from by
                      simp [firstKnownTag, knownTags, List.find?, hS, hN, hB, hBOOL,
                        hNULL, hM, hL, hSS, hNS]]
                    dsimp only
                    rw [dispatchTag_NS]
                    simp [attr_size_fields, hS, hN, hB, hBOOL, hNULL, hM, hL, hSS, hNS]
                  · by_cases hBS : hasKey tagBS fields
                    · rw [show firstKnownTag fields = some tagBS from by
                        simp [firstKnownTag, knownTags, List.find?, hS, hN, hB, hBOOL,
                          hNULL, hM, hL, hSS, hNS, hBS]]
                      dsimp only
                      rw [dispatchTag_BS]
                      simp [attr_size_fields, hS, hN, hB, hBOOL, hNULL, hM, hL, hSS,
                        hNS, hBS]
                    · rw [show firstKnownTag fields = none from by
                        simp [firstKnownTag, knownTags, List.find?, hS, hN, hB, hBOOL,
                          hNULL, hM, hL, hSS, hNS, hBS]]
                      dsimp only
                      simp [attr_size_fields, hS, hN, hB, hBOOL, hNULL, hM, hL, hSS,
                        hNS, hBS]

/-- C10 (counterexample): an object carrying both the S and the N tag with
a malformed S payload makes `attr_size` raise a payload-shape error, so
"raises no error" does not hold for every multi-tag object. -/
theorem c10_counterexample :
    hasKey tagS [(tagS, JVal.jbool true), (tagN, JVal.jstr ['5'])] = true ∧
    hasKey tagN [(tagS, JVal.jbool true), (tagN, JVal.jstr ['5'])] = true ∧
    attr_size (JVal.jobj [(tagS, JVal.jbool true), (tagN, JVal.jstr ['5'])]) =
      .error .badPayload := by
  refine ⟨by decide, by decide, ?_⟩
  rw [attr_size_obj]
  simp [attr_size_fields, hasKey, lookupJ, sizeS]

/-- C10 (amended): the dispatch is decided solely by the first known tag
in the fixed order S,N,B,BOOL,NULL,M,L,SS,NS,BS — all other fields are
ignored — and the top-level unrecognized-type error occurs exactly in the
no-known-tag case; an object with both a well-formed S payload and an N
tag is sized by the string rule alone. -/
theorem c10_amended (fields : List (List Char × JVal)) :
    (firstKnownTag fields = none → attr_size (JVal.jobj fields) = .error .unknownType) ∧
    (∀ tg, firstKnownTag fields = some tg →
      attr_size (JVal.jobj fields) = dispatchTag tg fields) ∧
    attr_size (JVal.jobj [(tagS, JVal.jstr ['x']), (tagN, JVal.jstr ['5'])]) =
      .ok (string_size ['x']) := by
  have hd := attr_size_fields_dispatch fields
  refine ⟨?_, ?_, ?_⟩
  · intro hnone
    rw [attr_size_obj, hd, hnone]
  · intro tg htg
    rw [attr_size_obj, hd, htg]
  · rw [attr_size_obj]
    simp [attr_size_fields, hasKey, lookupJ, sizeS]

/-- C10 (witness): the amended claim evaluated on a one-tag object. -/
theorem c10_witness :
    firstKnownTag [(tagN, JVal.jstr ['5'])] = some tagN ∧
    attr_size (JVal.jobj [(tagN, JVal.jstr ['5'])]) =
      dispatchTag tagN [(tagN, JVal.jstr ['5'])] := by
  refine ⟨by decide, (c10_amended [(tagN, JVal.jstr ['5'])]).2.1 tagN (by decide)⟩

/-- C2 (code_bug evidence): at item size 1025 the emitted write statistics
are computed from the READ block count (`write_bytes_required =
read_blocks_required * 1024` in the source), so the write budget is 1024
bytes, the efficiency exceeds 1 and the excess is negative, contradicting
the specified `write_bytes_budget = write_blocks * 1024`.  A record of
that size: {"a": {"S": "a"*1024}}. -/
theorem c2_write_stats_bug :
    item_size [(['a'], (AttrVal.S (List.replicate 1024 'a')).toJVal)] = .ok 1025 ∧
    (generate_stats_record 1025).write_units = 2 ∧
    (generate_stats_record 1025).write_excess = -1 ∧
    (generate_stats_record 1025).write_efficiency = 1025 / 1024 ∧
    ¬ ((generate_stats_record 1025).write_efficiency ≤ 1) ∧
    (generate_stats_record 1025).write_excess < 0 := by
  have h1 : attr_size (AttrVal.S (List.replicate 1024 'a')).toJVal = .ok 1024 := by
    rw [attr_size_S]
    rw [show string_size (List.replicate 1024 'a') = 1024 from by
      unfold string_size
      rw [List.map_replicate, List.sum_replicate]
      simp
      decide]
  have h2 := @item_size_sum [(['a'], (AttrVal.S (List.replicate 1024 'a')).toJVal)] [1024]
    (List.Forall₂.cons h1 List.Forall₂.nil)
  have h3 : string_size ['a'] = 1 := by decide
  refine ⟨?_, ?_, ?_, ?_, ?_, ?_⟩
  · rw [h2]
    refine congrArg Except.ok ?_
    rw [List.map_cons, List.map_nil, List.sum_cons, List.sum_nil, List.sum_cons,
      List.sum_nil]
    dsimp only
    rw [h3]
    omega
  · simp [generate_stats_record]
  · simp [generate_stats_record]
  · simp [generate_stats_record]
  · simp [generate_stats_record]
    norm_num
  · simp [generate_stats_record]
